import Mathlib

/- Verification development for src/interpreter.py: a tokenizer (class Lexer),
   a recursive-descent parser (class Parser) and an AST evaluator
   (class Interpreter) for arithmetic expressions over the operators
   + - * / and parentheses.

   Modelling conventions:
   * Python strings are `List Char`; the lexer cursor `pos` indexes into it.
   * The Python field `current_char` is always `text[pos]` when `pos` is in
     range and `None` otherwise (established by `Lexer.__init__` for a
     non-empty input and preserved by `advance`, whose "if pos > len - 1"
     check is exactly that test), so it is modelled as the derived function
     `Lexer.current_char` rather than a stored field.
   * The `while` loops of the source (`skip_whitespace`, `integer`, the
     parser's `term`/`expr` loops and the mutual recursion of the grammar
     productions) are modelled with an explicit fuel parameter so that every
     definition is structurally recursive and computable by the kernel.
     Exhausted fuel in the parser surfaces as the distinguished error
     `InterpErr.outOfFuel`, proved unreachable for sufficient fuel below.
   * Exceptions are modelled with `Except InterpErr`.
   * Numbers are modelled in `Rat`: Python ints embed exactly, and Python's
     `/` on them is true division (`visit_BinOp` uses `/`), which `Rat`
     division models; division by zero, which raises `ZeroDivisionError`
     in Python, is modelled as `InterpErr.divisionByZero`. -/

/-- Equality of `Except` results is decidable componentwise (used to settle
concrete pipeline runs with `decide`). -/
instance {ε α : Type} [DecidableEq ε] [DecidableEq α] : DecidableEq (Except ε α)
  | .ok a, .ok b =>
    if h : a = b then .isTrue (by rw [h]) else .isFalse (by simp [h])
  | .error e, .error f =>
    if h : e = f then .isTrue (by rw [h]) else .isFalse (by simp [h])
  | .ok _, .error _ => .isFalse (by simp)
  | .error _, .ok _ => .isFalse (by simp)

/-- Python's `str.isspace` restricted to the ASCII whitespace characters
(the source never feeds it anything else in the claims considered). -/
def pyIsSpace (c : Char) : Bool :=
  c = ' ' || c = '\t' || c = '\n' || c = '\r' || c = '\x0b' || c = '\x0c'

/-- Python's `str.isdigit` on the decimal digits `'0'..'9'`. -/
def pyIsDigit (c : Char) : Bool :=
  '0' ≤ c && c ≤ '9'

/-- The error kinds the program can raise.  `lexicalError` models the class
`LexicalError`, `parsingError` the class `ParsingError`, `divisionByZero`
Python's `ZeroDivisionError` from `/`, `unsupportedNode` both
`Interpreter.generic_visit`'s `Exception` and the silent `None` fallthrough
of `visit_BinOp` on a non-arithmetic operator token, `emptyInput` the
`IndexError` raised by `Lexer.__init__` reading `text[0]` of an empty
string, and `outOfFuel` is the embedding's recursion bound (no Python
counterpart; proved unreachable with the fuel used by `run`). -/
inductive InterpErr where
  | lexicalError
  | parsingError
  | divisionByZero
  | unsupportedNode
  | emptyInput
  | outOfFuel
deriving DecidableEq, Repr

/-- The token-type enumeration `TokenType` of the source. -/
inductive TokenType where
  | INTEGER
  | PLUS
  | MINUS
  | MUL
  | DIV
  | LPAREN
  | RPAREN
  | EOF
deriving DecidableEq, Repr

/-- The dynamic `value` field of a Python `Token`: `None` for EOF, the parsed
non-negative integer for INTEGER tokens, and the one-character lexeme string
for the operator and parenthesis tokens (the source passes e.g. `"+"`). -/
inductive TokenValue where
  | none
  | int (n : Nat)
  | str (s : String)
deriving DecidableEq, Repr

/-- The class `Token` of the source: a type tag and a value. -/
structure Token where
  type : TokenType
  value : TokenValue
deriving DecidableEq, Repr

/-- The cursor state of the class `Lexer`: the input text and the position.
`current_char` is derived, see the header comment. -/
structure Lexer where
  text : List Char
  pos : Nat
deriving DecidableEq, Repr

/-- The source's `current_char` field as a function of the cursor. -/
def Lexer.current_char (l : Lexer) : Option Char :=
  l.text.get? l.pos

/-- `Lexer.__init__`: position 0.  (For the empty string Python would raise
`IndexError` reading `text[0]`; `run` below guards that case explicitly.) -/
def Lexer.init (text : List Char) : Lexer :=
  { text := text, pos := 0 }

/-- `Lexer.advance`: step the position; `current_char` becomes `None` once
`pos > len(text) - 1`, which the derived `Lexer.current_char` reproduces. -/
def Lexer.advance (l : Lexer) : Lexer :=
  { l with pos := l.pos + 1 }

/-- The `while` loop of `Lexer.skip_whitespace`, with fuel.
`Lexer.text.length + 1` fuel is always enough since each step advances
`pos` and the loop stops once `pos` leaves the text. -/
def Lexer.skip_whitespace : Nat → Lexer → Lexer
  | 0, l => l
  | fuel + 1, l =>
    match l.current_char with
    | some c => if pyIsSpace c then Lexer.skip_whitespace fuel l.advance else l
    | Option.none => l

/-- The `while` loop of `Lexer.integer`, with fuel.  The source accumulates
the digit characters into a string and applies `int`; accumulating the
numeric value digit by digit (`10 * acc + digit`) is the same function. -/
def Lexer.integerLoop : Nat → Lexer → Nat → Nat × Lexer
  | 0, l, acc => (acc, l)
  | fuel + 1, l, acc =>
    match l.current_char with
    | some c =>
      if pyIsDigit c then
        Lexer.integerLoop fuel l.advance (10 * acc + (c.toNat - 48))
      else (acc, l)
    | Option.none => (acc, l)

/-- `Lexer.integer`: collect the maximal run of digits at the cursor. -/
def Lexer.integer (l : Lexer) : Nat × Lexer :=
  Lexer.integerLoop (l.text.length + 1) l 0

/-- The single-character dispatch of `Lexer.get_next_token`'s loop body,
applied once the cursor no longer sits on whitespace: digits form an INTEGER
token, the six punctuation characters form their one-character tokens, a
spent cursor yields EOF, and anything else raises `LexicalError`. -/
def Lexer.dispatch (l1 : Lexer) : Except InterpErr (Token × Lexer) :=
  match l1.current_char with
  | Option.none => .ok (⟨.EOF, .none⟩, l1)
  | some c =>
    if pyIsDigit c then
      let r := l1.integer
      .ok (⟨.INTEGER, .int r.1⟩, r.2)
    else if c = '+' then .ok (⟨.PLUS, .str "+"⟩, l1.advance)
    else if c = '-' then .ok (⟨.MINUS, .str "-"⟩, l1.advance)
    else if c = '*' then .ok (⟨.MUL, .str "*"⟩, l1.advance)
    else if c = '/' then .ok (⟨.DIV, .str "/"⟩, l1.advance)
    else if c = '(' then .ok (⟨.LPAREN, .str "("⟩, l1.advance)
    else if c = ')' then .ok (⟨.RPAREN, .str ")"⟩, l1.advance)
    else .error .lexicalError

/-- `Lexer.get_next_token`.  The source's `while self.current_char is not
None` loop re-iterates only through the whitespace branch (`continue` after
`skip_whitespace`), and `skip_whitespace` is the identity on a non-space
cursor, so the loop is exactly: skip all whitespace, then dispatch once on
the resulting character (EOF when the cursor left the text). -/
def Lexer.get_next_token (l : Lexer) : Except InterpErr (Token × Lexer) :=
  Lexer.dispatch (Lexer.skip_whitespace (l.text.length + 1) l)

/-- Repeatedly call `get_next_token` until EOF, collecting the tokens (the
spec's `tokenize`); the EOF token is included as the last element. -/
def tokenizeLoop : Nat → Lexer → List Token → Except InterpErr (List Token)
  | 0, _, _ => .error .outOfFuel
  | fuel + 1, l, acc =>
    match l.get_next_token with
    | .error e => .error e
    | .ok (t, l') =>
      if t.type = .EOF then .ok (acc ++ [t])
      else tokenizeLoop fuel l' (acc ++ [t])

/-- Tokenize a whole string.  Every non-EOF token strictly advances the
cursor, so `length + 2` rounds of fuel always suffice. -/
def tokenize (s : String) : Except InterpErr (List Token) :=
  tokenizeLoop (s.data.length + 2) (Lexer.init s.data) []

/-- The AST of the source: `Num` holds its originating token (the source's
`Num.value` is `token.value`), `BinOp` holds the operator token. -/
inductive AST where
  | Num (token : Token)
  | BinOp (left : AST) (op : Token) (right : AST)
deriving DecidableEq, Repr

/-- The state of the class `Parser`: the lexer and the one-token lookahead
buffer `current_token`. -/
structure Parser where
  lexer : Lexer
  current_token : Token
deriving DecidableEq, Repr

/-- `Parser.__init__`: pull the first token into the lookahead buffer. -/
def Parser.init (lexer : Lexer) : Except InterpErr Parser :=
  match lexer.get_next_token with
  | .ok (t, l') => .ok ⟨l', t⟩
  | .error e => .error e

/-- `Parser.eat`: on a matching lookahead pull the next token, otherwise
raise `ParsingError` (the source's `Parser.error`). -/
def Parser.eat (p : Parser) (token_type : TokenType) : Except InterpErr Parser :=
  if p.current_token.type = token_type then
    match p.lexer.get_next_token with
    | .ok (t, l') => .ok ⟨l', t⟩
    | .error e => .error e
  else .error .parsingError

mutual

/-- `Parser.factor`: `NUMBER | '(' expr ')'`, anything else is a
`ParsingError`.  The source's local variable `token = self.current_token`,
captured before `eat`, is written `p.current_token` here: `p` is the
immutable pre-`eat` state, so the two coincide. -/
def factor : Nat → Parser → Except InterpErr (AST × Parser)
  | 0, _ => .error .outOfFuel
  | fuel + 1, p =>
    if p.current_token.type = .INTEGER then
      match p.eat .INTEGER with
      | .ok p' => .ok (.Num p.current_token, p')
      | .error e => .error e
    else if p.current_token.type = .LPAREN then
      match p.eat .LPAREN with
      | .ok p1 =>
        match expr fuel p1 with
        | .ok (node, p2) =>
          match p2.eat .RPAREN with
          | .ok p3 => .ok (node, p3)
          | .error e => .error e
        | .error e => .error e
      | .error e => .error e
    else .error .parsingError

/-- `Parser.term`: a factor followed by the `* /` loop. -/
def term : Nat → Parser → Except InterpErr (AST × Parser)
  | 0, _ => .error .outOfFuel
  | fuel + 1, p =>
    match factor fuel p with
    | .ok (node, p1) => termLoop fuel node p1
    | .error e => .error e

/-- The `while self.current_token.type in (MUL, DIV)` loop of
`Parser.term`; the `if/elif` dispatch of the source is reproduced, with the
(unreachable) fallthrough consuming nothing, as in Python. -/
def termLoop : Nat → AST → Parser → Except InterpErr (AST × Parser)
  | 0, _, _ => .error .outOfFuel
  | fuel + 1, node, p =>
    if p.current_token.type = .MUL ∨ p.current_token.type = .DIV then
      match (if p.current_token.type = .MUL then p.eat .MUL
             else if p.current_token.type = .DIV then p.eat .DIV
             else .ok p) with
      | .ok p1 =>
        match factor fuel p1 with
        | .ok (right, p2) => termLoop fuel (.BinOp node p.current_token right) p2
        | .error e => .error e
      | .error e => .error e
    else .ok (node, p)

/-- `Parser.expr`: a term followed by the `+ -` loop. -/
def expr : Nat → Parser → Except InterpErr (AST × Parser)
  | 0, _ => .error .outOfFuel
  | fuel + 1, p =>
    match term fuel p with
    | .ok (node, p1) => exprLoop fuel node p1
    | .error e => .error e

/-- The `while self.current_token.type in (PLUS, MINUS)` loop of
`Parser.expr`. -/
def exprLoop : Nat → AST → Parser → Except InterpErr (AST × Parser)
  | 0, _, _ => .error .outOfFuel
  | fuel + 1, node, p =>
    if p.current_token.type = .PLUS ∨ p.current_token.type = .MINUS then
      match (if p.current_token.type = .PLUS then p.eat .PLUS
             else if p.current_token.type = .MINUS then p.eat .MINUS
             else .ok p) with
      | .ok p1 =>
        match term fuel p1 with
        | .ok (right, p2) => exprLoop fuel (.BinOp node p.current_token right) p2
        | .error e => .error e
      | .error e => .error e
    else .ok (node, p)

end

/-- The fuel `run` gives the parser: enough for any input of this length
(proved in the lemmas for the termination claim). -/
def parserFuel (len : Nat) : Nat :=
  3 * len + 6

/-- `Interpreter.visit`: dispatch on the node class.  `visit_Num` returns the
stored value (always an `int` for parser-built trees; any other stored value
is modelled as the unsupported-node error).  `visit_BinOp` dispatches on the
operator token's type; an operator outside `+ - * /` falls through all
branches (Python silently returns `None`), modelled as the unsupported-node
error.  Division by zero raises in Python and errors here. -/
def visit : AST → Except InterpErr Rat
  | .Num t =>
    match t.value with
    | .int n => .ok (n : Rat)
    | _ => .error .unsupportedNode
  | .BinOp l op r =>
    match op.type with
    | .PLUS =>
      match visit l, visit r with
      | .ok a, .ok b => .ok (a + b)
      | .error e, _ => .error e
      | _, .error e => .error e
    | .MINUS =>
      match visit l, visit r with
      | .ok a, .ok b => .ok (a - b)
      | .error e, _ => .error e
      | _, .error e => .error e
    | .MUL =>
      match visit l, visit r with
      | .ok a, .ok b => .ok (a * b)
      | .error e, _ => .error e
      | _, .error e => .error e
    | .DIV =>
      match visit l, visit r with
      | .ok a, .ok b => if b = 0 then .error .divisionByZero else .ok (a / b)
      | .error e, _ => .error e
      | _, .error e => .error e
    | _ => .error .unsupportedNode

/-- Parse one top-level expression, returning the AST together with the
final parser state (so that leftover lookahead is observable). -/
def parseExpressionFull (s : String) : Except InterpErr (AST × Parser) :=
  if s.data = [] then .error .emptyInput
  else
    match Parser.init (Lexer.init s.data) with
    | .ok p => expr (parserFuel s.data.length) p
    | .error e => .error e

/-- The spec's `parseExpression`: tokenizing plus parsing, AST only. -/
def parseExpression (s : String) : Except InterpErr AST :=
  match parseExpressionFull s with
  | .ok (node, _) => .ok node
  | .error e => .error e

/-- The full pipeline of `main` / `Interpreter.interpret`: build the lexer
and parser, parse with `expr`, evaluate the tree. -/
def interpret (s : String) : Except InterpErr Rat :=
  match parseExpressionFull s with
  | .ok (node, _) => visit node
  | .error e => .error e

/-- The lexer cursor never points past the end of the text (established by
construction at position 0 and preserved by every lexer operation). -/
@[reducible] def Lexer.InBounds (l : Lexer) : Prop :=
  l.pos ≤ l.text.length

/-- A parser state is in bounds when its lexer is. -/
@[reducible] def Parser.InBounds (p : Parser) : Prop :=
  p.lexer.InBounds

/-- Progress measure of a parser state: characters left in the lexer, plus
one if the lookahead token still has to be consumed (is not EOF).  Eating a
non-EOF token strictly decreases it. -/
def Parser.rem (p : Parser) : Nat :=
  (p.lexer.text.length - p.lexer.pos) +
    (if p.current_token.type = .EOF then 0 else 1)

/-- A parser-production result is good for start state `p`: it is not the
fuel-exhaustion artifact, and on success the state stays in bounds with a
strictly smaller measure. -/
@[reducible] def GoodLt (p : Parser) (r : Except InterpErr (AST × Parser)) : Prop :=
  r ≠ .error .outOfFuel ∧
    ∀ a p', r = .ok (a, p') → p'.InBounds ∧ p'.rem < p.rem

/-- Like `GoodLt` but with a non-strict measure bound (for the operator
loops, which may run zero iterations). -/
@[reducible] def GoodLe (p : Parser) (r : Except InterpErr (AST × Parser)) : Prop :=
  r ≠ .error .outOfFuel ∧
    ∀ a p', r = .ok (a, p') → p'.InBounds ∧ p'.rem ≤ p.rem

/-- Fuel `f` is enough for `factor` on every in-bounds state of measure
within budget. -/
@[reducible] def FactorOK (f : Nat) : Prop :=
  ∀ p : Parser, p.InBounds → 3 * p.rem + 1 ≤ f → GoodLt p (factor f p)

/-- Fuel `f` is enough for `term`. -/
@[reducible] def TermOK (f : Nat) : Prop :=
  ∀ p : Parser, p.InBounds → 3 * p.rem + 2 ≤ f → GoodLt p (term f p)

/-- Fuel `f` is enough for `expr`. -/
@[reducible] def ExprOK (f : Nat) : Prop :=
  ∀ p : Parser, p.InBounds → 3 * p.rem + 3 ≤ f → GoodLt p (expr f p)

/-- Fuel `f` is enough for the `term` operator loop. -/
@[reducible] def TermLoopOK (f : Nat) : Prop :=
  ∀ (n : AST) (p : Parser), p.InBounds → 3 * p.rem + 4 ≤ f →
    GoodLe p (termLoop f n p)

/-- Fuel `f` is enough for the `expr` operator loop. -/
@[reducible] def ExprLoopOK (f : Nat) : Prop :=
  ∀ (n : AST) (p : Parser), p.InBounds → 3 * p.rem + 4 ≤ f →
    GoodLe p (exprLoop f n p)

section LexerLemmas

theorem Lexer.advance_text (l : Lexer) : l.advance.text = l.text := rfl

theorem Lexer.advance_pos (l : Lexer) : l.advance.pos = l.pos + 1 := rfl

theorem Lexer.pos_lt_of_current_char (l : Lexer) (c : Char)
    (h : l.current_char = some c) : l.pos < l.text.length := by
  obtain ⟨hlt, -⟩ := List.get?_eq_some.mp h
  exact hlt

theorem Lexer.skip_whitespace_text (fuel : Nat) (l : Lexer) :
    (Lexer.skip_whitespace fuel l).text = l.text := by
  induction fuel generalizing l with
  | zero => rfl
  | succ fuel ih =>
    unfold Lexer.skip_whitespace
    cases h : l.current_char with
    | none => rfl
    | some c =>
      by_cases hs : pyIsSpace c
      · simp only [hs, if_true]
        exact (ih l.advance).trans (Lexer.advance_text l)
      · simp [hs]

theorem Lexer.skip_whitespace_pos_le (fuel : Nat) (l : Lexer) :
    l.pos ≤ (Lexer.skip_whitespace fuel l).pos := by
  induction fuel generalizing l with
  | zero => exact Nat.le_refl _
  | succ fuel ih =>
    unfold Lexer.skip_whitespace
    cases h : l.current_char with
    | none => exact Nat.le_refl _
    | some c =>
      by_cases hs : pyIsSpace c
      · simp only [hs, if_true]
        exact Nat.le_trans (Nat.le_succ _) (ih l.advance)
      · simp [hs]

theorem Lexer.skip_whitespace_inBounds (fuel : Nat) (l : Lexer)
    (h : l.InBounds) : (Lexer.skip_whitespace fuel l).InBounds := by
  induction fuel generalizing l with
  | zero => exact h
  | succ fuel ih =>
    unfold Lexer.skip_whitespace
    cases hc : l.current_char with
    | none => exact h
    | some c =>
      by_cases hs : pyIsSpace c
      · simp only [hs, if_true]
        have hlt := Lexer.pos_lt_of_current_char l c hc
        have : l.advance.InBounds := by
          unfold Lexer.InBounds at *
          rw [Lexer.advance_pos, Lexer.advance_text]
          exact hlt
        exact ih l.advance this
      · simpa [hs] using h

theorem Lexer.skip_whitespace_none (fuel : Nat) (l : Lexer)
    (h : l.current_char = Option.none) :
    Lexer.skip_whitespace fuel l = l := by
  cases fuel with
  | zero => rfl
  | succ fuel => simp [Lexer.skip_whitespace, h]

/-- On an all-whitespace text, skipping with enough fuel spends the whole
input. -/
theorem Lexer.skip_whitespace_all (fuel : Nat) (l : Lexer)
    (hall : ∀ c ∈ l.text, pyIsSpace c = true)
    (hfuel : l.text.length ≤ l.pos + fuel) :
    l.text.length ≤ (Lexer.skip_whitespace fuel l).pos := by
  induction fuel generalizing l with
  | zero => simpa using hfuel
  | succ fuel ih =>
    unfold Lexer.skip_whitespace
    cases hc : l.current_char with
    | none =>
      have := List.get?_eq_none.mp hc
      exact this
    | some c =>
      have hmem : c ∈ l.text := List.get?_mem hc
      have hs : pyIsSpace c = true := hall c hmem
      simp only [hs, if_true]
      have : l.advance.text.length ≤ l.advance.pos + fuel := by
        rw [Lexer.advance_text, Lexer.advance_pos]
        omega
      have hall' : ∀ c ∈ l.advance.text, pyIsSpace c = true := by
        rw [Lexer.advance_text]; exact hall
      have := ih l.advance hall' this
      rwa [Lexer.advance_text] at this

theorem Lexer.integerLoop_text (fuel : Nat) (l : Lexer) (acc : Nat) :
    (Lexer.integerLoop fuel l acc).2.text = l.text := by
  induction fuel generalizing l acc with
  | zero => rfl
  | succ fuel ih =>
    unfold Lexer.integerLoop
    cases h : l.current_char with
    | none => rfl
    | some c =>
      by_cases hd : pyIsDigit c
      · simp only [hd, if_true]
        exact (ih l.advance _).trans (Lexer.advance_text l)
      · simp [hd]

theorem Lexer.integerLoop_pos_le (fuel : Nat) (l : Lexer) (acc : Nat) :
    l.pos ≤ (Lexer.integerLoop fuel l acc).2.pos := by
  induction fuel generalizing l acc with
  | zero => exact Nat.le_refl _
  | succ fuel ih =>
    unfold Lexer.integerLoop
    cases h : l.current_char with
    | none => exact Nat.le_refl _
    | some c =>
      by_cases hd : pyIsDigit c
      · simp only [hd, if_true]
        exact Nat.le_trans (Nat.le_succ _) (ih l.advance _)
      · simp [hd]

theorem Lexer.integerLoop_inBounds (fuel : Nat) (l : Lexer) (acc : Nat)
    (h : l.InBounds) : (Lexer.integerLoop fuel l acc).2.InBounds := by
  induction fuel generalizing l acc with
  | zero => exact h
  | succ fuel ih =>
    unfold Lexer.integerLoop
    cases hc : l.current_char with
    | none => exact h
    | some c =>
      by_cases hd : pyIsDigit c
      · simp only [hd, if_true]
        have hlt := Lexer.pos_lt_of_current_char l c hc
        have : l.advance.InBounds := by
          unfold Lexer.InBounds at *
          rw [Lexer.advance_pos, Lexer.advance_text]
          exact hlt
        exact ih l.advance _ this
      · simpa [hd] using h

theorem Lexer.integer_text (l : Lexer) : l.integer.2.text = l.text :=
  Lexer.integerLoop_text _ l 0

theorem Lexer.integer_pos_lt (l : Lexer) (c : Char)
    (hc : l.current_char = some c) (hd : pyIsDigit c = true) :
    l.pos < l.integer.2.pos := by
  unfold Lexer.integer
  unfold Lexer.integerLoop
  simp only [hc, hd, if_true]
  have := Lexer.integerLoop_pos_le (l.text.length) l.advance (10 * 0 + (c.toNat - 48))
  rw [Lexer.advance_pos] at this
  omega

theorem Lexer.integer_inBounds (l : Lexer) (h : l.InBounds) :
    l.integer.2.InBounds :=
  Lexer.integerLoop_inBounds _ l 0 h

theorem Lexer.dispatch_error (l1 : Lexer) (e : InterpErr)
    (h : Lexer.dispatch l1 = .error e) : e = .lexicalError := by
  unfold Lexer.dispatch at h
  cases hc : l1.current_char with
  | none => rw [hc] at h; simp at h
  | some c =>
    rw [hc] at h
    simp only at h
    split_ifs at h <;> simp_all

theorem Lexer.dispatch_ok (l1 : Lexer) (t : Token) (l' : Lexer)
    (hin : l1.InBounds) (h : Lexer.dispatch l1 = .ok (t, l')) :
    l'.text = l1.text ∧ l1.pos ≤ l'.pos ∧ l'.InBounds ∧
      (t.type ≠ .EOF → l1.pos < l'.pos ∧ l1.pos < l1.text.length) := by
  unfold Lexer.dispatch at h
  cases hc : l1.current_char with
  | none =>
    rw [hc] at h
    simp only [Except.ok.injEq, Prod.mk.injEq] at h
    obtain ⟨rfl, rfl⟩ := h
    exact ⟨rfl, Nat.le_refl _, hin, fun hne => absurd rfl hne⟩
  | some c =>
    rw [hc] at h
    have hlt := Lexer.pos_lt_of_current_char l1 c hc
    simp only at h
    split_ifs at h with h1 h2 h3 h4 h5 h6 h7 <;>
      simp only [Except.ok.injEq, Prod.mk.injEq] at h
    · obtain ⟨rfl, rfl⟩ := h
      refine ⟨Lexer.integer_text l1, Lexer.integerLoop_pos_le _ l1 0,
        Lexer.integer_inBounds l1 hin, fun _ => ⟨?_, hlt⟩⟩
      exact Lexer.integer_pos_lt l1 c hc h1
    all_goals
      obtain ⟨rfl, rfl⟩ := h
      refine ⟨rfl, Nat.le_succ _, ?_, fun _ => ⟨Nat.lt_succ_self _, hlt⟩⟩
      unfold Lexer.InBounds at *
      rw [Lexer.advance_pos, Lexer.advance_text]
      exact hlt

theorem Lexer.get_next_token_error (l : Lexer) (e : InterpErr)
    (h : l.get_next_token = .error e) : e = .lexicalError :=
  Lexer.dispatch_error _ e h

theorem Lexer.get_next_token_ok (l : Lexer) (t : Token) (l' : Lexer)
    (hin : l.InBounds) (h : l.get_next_token = .ok (t, l')) :
    l'.text = l.text ∧ l.pos ≤ l'.pos ∧ l'.InBounds ∧
      (t.type ≠ .EOF → l.pos < l'.pos ∧ l.pos < l.text.length) := by
  unfold Lexer.get_next_token at h
  have hin1 := Lexer.skip_whitespace_inBounds (l.text.length + 1) l hin
  have htext := Lexer.skip_whitespace_text (l.text.length + 1) l
  have hle := Lexer.skip_whitespace_pos_le (l.text.length + 1) l
  obtain ⟨ht, hp, hb, hs⟩ := Lexer.dispatch_ok _ t l' hin1 h
  refine ⟨ht.trans htext, Nat.le_trans hle hp, hb, fun hne => ?_⟩
  obtain ⟨hlt, hbound⟩ := hs hne
  rw [htext] at hbound
  exact ⟨Nat.lt_of_le_of_lt hle hlt, Nat.lt_of_le_of_lt hle hbound⟩

/-- Once the cursor has left the text, `get_next_token` returns EOF and
leaves the cursor untouched. -/
theorem Lexer.get_next_token_exhausted (l : Lexer)
    (h : l.text.length ≤ l.pos) :
    l.get_next_token = .ok (⟨.EOF, .none⟩, l) := by
  have hc : l.current_char = Option.none := List.get?_eq_none.mpr h
  unfold Lexer.get_next_token
  rw [Lexer.skip_whitespace_none _ l hc]
  unfold Lexer.dispatch
  rw [hc]

end LexerLemmas

section ParserLemmas

theorem Parser.init_error (l : Lexer) (e : InterpErr)
    (h : Parser.init l = .error e) : e = .lexicalError := by
  unfold Parser.init at h
  cases hg : l.get_next_token with
  | ok r => rw [hg] at h; simp at h
  | error e' =>
    rw [hg] at h
    simp only [Except.error.injEq] at h
    exact h ▸ Lexer.get_next_token_error l e' hg

theorem Parser.init_ok (l : Lexer) (p : Parser) (hin : l.InBounds)
    (h : Parser.init l = .ok p) :
    p.InBounds ∧ p.lexer.text = l.text ∧ p.rem ≤ l.text.length + 1 := by
  unfold Parser.init at h
  cases hg : l.get_next_token with
  | error e' => rw [hg] at h; simp at h
  | ok r =>
    obtain ⟨t, l'⟩ := r
    rw [hg] at h
    simp only [Except.ok.injEq] at h
    obtain ⟨ht, hp, hb, -⟩ := Lexer.get_next_token_ok l t l' hin hg
    subst h
    refine ⟨hb, ht, ?_⟩
    unfold Parser.rem
    simp only
    rw [ht]
    have : l.text.length - l'.pos ≤ l.text.length := Nat.sub_le _ _
    split_ifs <;> omega

theorem Parser.eat_error (p : Parser) (tt : TokenType) (e : InterpErr)
    (h : p.eat tt = .error e) : e = .lexicalError ∨ e = .parsingError := by
  unfold Parser.eat at h
  split_ifs at h with h1
  · cases hg : p.lexer.get_next_token with
    | ok r => rw [hg] at h; simp at h
    | error e' =>
      rw [hg] at h
      simp only [Except.error.injEq] at h
      exact Or.inl (h ▸ Lexer.get_next_token_error _ e' hg)
  · simp only [Except.error.injEq] at h
    exact Or.inr h.symm

theorem Parser.eat_ok (p : Parser) (tt : TokenType) (p' : Parser)
    (hin : p.InBounds) (hne : p.current_token.type ≠ .EOF)
    (h : p.eat tt = .ok p') : p'.InBounds ∧ p'.rem < p.rem := by
  unfold Parser.eat at h
  split_ifs at h with h1
  · cases hg : p.lexer.get_next_token with
    | error e' => rw [hg] at h; simp at h
    | ok r =>
      obtain ⟨t, l'⟩ := r
      rw [hg] at h
      simp only [Except.ok.injEq] at h
      obtain ⟨ht, hp, hb, hs⟩ :=
        Lexer.get_next_token_ok p.lexer t l' hin hg
      subst h
      refine ⟨hb, ?_⟩
      unfold Parser.rem
      simp only
      rw [ht, if_neg hne]
      by_cases hteof : t.type = .EOF
      · rw [if_pos hteof]
        omega
      · rw [if_neg hteof]
        obtain ⟨hlt, hbound⟩ := hs hteof
        omega

end ParserLemmas

section FuelSufficiency

theorem GoodLt_error {p : Parser} {e : InterpErr} (h : e ≠ .outOfFuel) :
    GoodLt p (.error e) := by
  refine ⟨fun hc => h (Except.error.inj hc), fun a p' hc => ?_⟩
  simp at hc

theorem GoodLt_ok {p p' : Parser} {a : AST} (h1 : p'.InBounds)
    (h2 : p'.rem < p.rem) : GoodLt p (.ok (a, p')) := by
  refine ⟨by simp, fun b q hq => ?_⟩
  simp only [Except.ok.injEq, Prod.mk.injEq] at hq
  obtain ⟨rfl, rfl⟩ := hq
  exact ⟨h1, h2⟩

theorem GoodLe_error {p : Parser} {e : InterpErr} (h : e ≠ .outOfFuel) :
    GoodLe p (.error e) := by
  refine ⟨fun hc => h (Except.error.inj hc), fun a p' hc => ?_⟩
  simp at hc

theorem GoodLe_ok {p p' : Parser} {a : AST} (h1 : p'.InBounds)
    (h2 : p'.rem ≤ p.rem) : GoodLe p (.ok (a, p')) := by
  refine ⟨by simp, fun b q hq => ?_⟩
  simp only [Except.ok.injEq, Prod.mk.injEq] at hq
  obtain ⟨rfl, rfl⟩ := hq
  exact ⟨h1, h2⟩

theorem ne_fuel_of_eq {α : Type} {r : Except InterpErr α} {e : InterpErr}
    (h : r ≠ .error .outOfFuel) (he : r = .error e) : e ≠ .outOfFuel :=
  fun hc => h (by rw [he, hc])

theorem error_ne_fuel {α : Type} {e : InterpErr} (h : e ≠ .outOfFuel) :
    (Except.error e : Except InterpErr α) ≠ .error .outOfFuel :=
  fun hc => h (Except.error.inj hc)

theorem Parser.eat_ne_fuel {p : Parser} {tt : TokenType} {e : InterpErr}
    (h : p.eat tt = .error e) : e ≠ .outOfFuel := by
  rcases Parser.eat_error p tt e h with rfl | rfl <;> decide

theorem Parser.eat_type {p : Parser} {tt : TokenType} {p' : Parser}
    (h : p.eat tt = .ok p') : p.current_token.type = tt := by
  unfold Parser.eat at h
  split_ifs at h with h1
  exact h1

/-- With fuel at least `3 * rem + (production constant)`, none of the five
grammar productions ever reports `outOfFuel`, and each successful production
keeps the state in bounds while consuming input (strictly, except for the
zero-iteration loops). -/
theorem parserFuelSufficient (f : Nat) :
    FactorOK f ∧ TermOK f ∧ TermLoopOK f ∧ ExprOK f ∧ ExprLoopOK f := by
  induction f using Nat.strong_induction_on with
  | _ f ih =>
  cases f with
  | zero =>
    refine ⟨fun p _ hf => absurd hf (by omega),
            fun p _ hf => absurd hf (by omega),
            fun n p _ hf => absurd hf (by omega),
            fun p _ hf => absurd hf (by omega),
            fun n p _ hf => absurd hf (by omega)⟩
  | succ g =>
    obtain ⟨ihF, ihT, ihTL, ihE, ihEL⟩ := ih g (Nat.lt_succ_self g)
    have hFactor : FactorOK (g + 1) := by
      intro p hin hf
      unfold factor
      by_cases h1 : p.current_token.type = .INTEGER
      · rw [if_pos h1]
        cases heat : p.eat .INTEGER with
        | error e => simp only [heat]; exact GoodLt_error (Parser.eat_ne_fuel heat)
        | ok p' =>
          simp only [heat]
          have hne : p.current_token.type ≠ .EOF := by rw [h1]; decide
          obtain ⟨hin', hrem⟩ := Parser.eat_ok p .INTEGER p' hin hne heat
          exact GoodLt_ok hin' hrem
      · rw [if_neg h1]
        by_cases h2 : p.current_token.type = .LPAREN
        · rw [if_pos h2]
          cases heat : p.eat .LPAREN with
          | error e => simp only [heat]; exact GoodLt_error (Parser.eat_ne_fuel heat)
          | ok p1 =>
            simp only [heat]
            have hne : p.current_token.type ≠ .EOF := by rw [h2]; decide
            obtain ⟨h1in, h1rem⟩ := Parser.eat_ok p .LPAREN p1 hin hne heat
            have hE := ihE p1 h1in (by omega)
            cases hex : expr g p1 with
            | error e => simp only [hex]; exact GoodLt_error (ne_fuel_of_eq hE.1 hex)
            | ok r =>
              obtain ⟨node, p2⟩ := r
              simp only [hex]
              obtain ⟨h2in, h2rem⟩ := hE.2 node p2 hex
              cases heat2 : p2.eat .RPAREN with
              | error e =>
                simp only [heat2]; exact GoodLt_error (Parser.eat_ne_fuel heat2)
              | ok p3 =>
                simp only [heat2]
                have hne2 : p2.current_token.type ≠ .EOF := by
                  rw [Parser.eat_type heat2]; decide
                obtain ⟨h3in, h3rem⟩ := Parser.eat_ok p2 .RPAREN p3 h2in hne2 heat2
                exact GoodLt_ok h3in (by omega)
        · rw [if_neg h2]
          exact GoodLt_error (by decide)
    have hTermLoop : TermLoopOK (g + 1) := by
      intro n p hin hf
      unfold termLoop
      by_cases hc : p.current_token.type = .MUL ∨ p.current_token.type = .DIV
      · rw [if_pos hc]
        have hstep :
            ∀ tt : TokenType, p.current_token.type = tt → tt ≠ .EOF →
              GoodLe p
                (match p.eat tt with
                 | .ok p1 =>
                   match factor g p1 with
                   | .ok (right, p2) =>
                     termLoop g (.BinOp n p.current_token right) p2
                   | .error e => .error e
                 | .error e => .error e) := by
          intro tt htt httne
          cases heat : p.eat tt with
          | error e => simp only [heat]; exact GoodLe_error (Parser.eat_ne_fuel heat)
          | ok p1 =>
            simp only [heat]
            have hne : p.current_token.type ≠ .EOF := by rw [htt]; exact httne
            obtain ⟨h1in, h1rem⟩ := Parser.eat_ok p tt p1 hin hne heat
            have hFg := ihF p1 h1in (by omega)
            cases hfac : factor g p1 with
            | error e => simp only [hfac]; exact GoodLe_error (ne_fuel_of_eq hFg.1 hfac)
            | ok r =>
              obtain ⟨right, p2⟩ := r
              simp only [hfac]
              obtain ⟨h2in, h2rem⟩ := hFg.2 right p2 hfac
              have hTLg := ihTL (AST.BinOp n p.current_token right) p2 h2in (by omega)
              refine ⟨hTLg.1, fun a p' hok => ?_⟩
              obtain ⟨h3in, h3rem⟩ := hTLg.2 a p' hok
              exact ⟨h3in, by omega⟩
        rcases hc with hop | hop
        · rw [if_pos hop]
          exact hstep .MUL hop (by decide)
        · have hMne : ¬(p.current_token.type = .MUL) := by rw [hop]; decide
          rw [if_neg hMne, if_pos hop]
          exact hstep .DIV hop (by decide)
      · rw [if_neg hc]
        exact GoodLe_ok hin (Nat.le_refl _)
    have hTerm : TermOK (g + 1) := by
      intro p hin hf
      unfold term
      have hFg := ihF p hin (by omega)
      cases hfac : factor g p with
      | error e => simp only [hfac]; exact GoodLt_error (ne_fuel_of_eq hFg.1 hfac)
      | ok r =>
        obtain ⟨node, p1⟩ := r
        simp only [hfac]
        obtain ⟨h1in, h1rem⟩ := hFg.2 node p1 hfac
        have hTLg := ihTL node p1 h1in (by omega)
        refine ⟨hTLg.1, fun a p' hok => ?_⟩
        obtain ⟨h2in, h2rem⟩ := hTLg.2 a p' hok
        exact ⟨h2in, by omega⟩
    have hExprLoop : ExprLoopOK (g + 1) := by
      intro n p hin hf
      unfold exprLoop
      by_cases hc : p.current_token.type = .PLUS ∨ p.current_token.type = .MINUS
      · rw [if_pos hc]
        have hstep :
            ∀ tt : TokenType, p.current_token.type = tt → tt ≠ .EOF →
              GoodLe p
                (match p.eat tt with
                 | .ok p1 =>
                   match term g p1 with
                   | .ok (right, p2) =>
                     exprLoop g (.BinOp n p.current_token right) p2
                   | .error e => .error e
                 | .error e => .error e) := by
          intro tt htt httne
          cases heat : p.eat tt with
          | error e => simp only [heat]; exact GoodLe_error (Parser.eat_ne_fuel heat)
          | ok p1 =>
            simp only [heat]
            have hne : p.current_token.type ≠ .EOF := by rw [htt]; exact httne
            obtain ⟨h1in, h1rem⟩ := Parser.eat_ok p tt p1 hin hne heat
            have hTg := ihT p1 h1in (by omega)
            cases hte : term g p1 with
            | error e => simp only [hte]; exact GoodLe_error (ne_fuel_of_eq hTg.1 hte)
            | ok r =>
              obtain ⟨right, p2⟩ := r
              simp only [hte]
              obtain ⟨h2in, h2rem⟩ := hTg.2 right p2 hte
              have hELg := ihEL (AST.BinOp n p.current_token right) p2 h2in (by omega)
              refine ⟨hELg.1, fun a p' hok => ?_⟩
              obtain ⟨h3in, h3rem⟩ := hELg.2 a p' hok
              exact ⟨h3in, by omega⟩
        rcases hc with hop | hop
        · rw [if_pos hop]
          exact hstep .PLUS hop (by decide)
        · have hPne : ¬(p.current_token.type = .PLUS) := by rw [hop]; decide
          rw [if_neg hPne, if_pos hop]
          exact hstep .MINUS hop (by decide)
      · rw [if_neg hc]
        exact GoodLe_ok hin (Nat.le_refl _)
    have hExpr : ExprOK (g + 1) := by
      intro p hin hf
      unfold expr
      have hTg := ihT p hin (by omega)
      cases hte : term g p with
      | error e => simp only [hte]; exact GoodLt_error (ne_fuel_of_eq hTg.1 hte)
      | ok r =>
        obtain ⟨node, p1⟩ := r
        simp only [hte]
        obtain ⟨h1in, h1rem⟩ := hTg.2 node p1 hte
        have hELg := ihEL node p1 h1in (by omega)
        refine ⟨hELg.1, fun a p' hok => ?_⟩
        obtain ⟨h2in, h2rem⟩ := hELg.2 a p' hok
        exact ⟨h2in, by omega⟩
    exact ⟨hFactor, hTerm, hTermLoop, hExpr, hExprLoop⟩

/-- The evaluator never produces the fuel artifact (its only errors are
division by zero and unsupported nodes). -/
theorem visit_ne_fuel (t : AST) : visit t ≠ .error .outOfFuel := by
  induction t with
  | Num tok =>
    unfold visit
    cases tok.value <;> simp
  | BinOp l op r ihl ihr =>
    unfold visit
    cases hop : op.type
    case INTEGER => exact error_ne_fuel (by decide)
    case LPAREN => exact error_ne_fuel (by decide)
    case RPAREN => exact error_ne_fuel (by decide)
    case EOF => exact error_ne_fuel (by decide)
    case PLUS =>
      cases hvl : visit l with
      | error e => simp only [hvl]; exact error_ne_fuel (ne_fuel_of_eq ihl hvl)
      | ok a =>
        cases hvr : visit r with
        | error e =>
          simp only [hvl, hvr]; exact error_ne_fuel (ne_fuel_of_eq ihr hvr)
        | ok b => simp only [hvl, hvr]; simp
    case MINUS =>
      cases hvl : visit l with
      | error e => simp only [hvl]; exact error_ne_fuel (ne_fuel_of_eq ihl hvl)
      | ok a =>
        cases hvr : visit r with
        | error e =>
          simp only [hvl, hvr]; exact error_ne_fuel (ne_fuel_of_eq ihr hvr)
        | ok b => simp only [hvl, hvr]; simp
    case MUL =>
      cases hvl : visit l with
      | error e => simp only [hvl]; exact error_ne_fuel (ne_fuel_of_eq ihl hvl)
      | ok a =>
        cases hvr : visit r with
        | error e =>
          simp only [hvl, hvr]; exact error_ne_fuel (ne_fuel_of_eq ihr hvr)
        | ok b => simp only [hvl, hvr]; simp
    case DIV =>
      cases hvl : visit l with
      | error e => simp only [hvl]; exact error_ne_fuel (ne_fuel_of_eq ihl hvl)
      | ok a =>
        cases hvr : visit r with
        | error e =>
          simp only [hvl, hvr]; exact error_ne_fuel (ne_fuel_of_eq ihr hvr)
        | ok b =>
          simp only [hvl, hvr]
          split_ifs
          · exact error_ne_fuel (by decide)
          · simp

/-- A `factor` on an EOF lookahead fails with `ParsingError` at any
positive fuel. -/
theorem factor_eof (p : Parser) (hp : p.current_token.type = .EOF) (f : Nat) :
    factor (f + 1) p = .error .parsingError := by
  unfold factor
  rw [if_neg (by rw [hp]; decide), if_neg (by rw [hp]; decide)]

/-- A `term` on an EOF lookahead fails with `ParsingError`. -/
theorem term_eof (p : Parser) (hp : p.current_token.type = .EOF) (f : Nat) :
    term (f + 2) p = .error .parsingError := by
  show term ((f + 1) + 1) p = _
  unfold term
  simp only [factor_eof p hp f]

/-- An `expr` on an EOF lookahead fails with `ParsingError`. -/
theorem expr_eof (p : Parser) (hp : p.current_token.type = .EOF) (f : Nat) :
    expr (f + 3) p = .error .parsingError := by
  show expr ((f + 2) + 1) p = _
  unfold expr
  simp only [term_eof p hp f]

/-- One iteration of the `expr` operator loop, with the lookahead operator
named explicitly. -/
theorem exprLoop_step (p1 : Parser) (op1 : Token)
    (hcur : p1.current_token = op1)
    (h1 : op1.type = .PLUS ∨ op1.type = .MINUS) (n : AST) (f : Nat) :
    exprLoop (f + 1) n p1 =
      match p1.eat op1.type with
      | .ok p2 =>
        match term f p2 with
        | .ok (right, p3) => exprLoop f (.BinOp n op1 right) p3
        | .error e => .error e
      | .error e => .error e := by
  conv_lhs => rw [exprLoop]
  have hguard : p1.current_token.type = .PLUS ∨ p1.current_token.type = .MINUS := by
    rw [hcur]; exact h1
  rw [if_pos hguard, hcur]
  rcases h1 with hP | hM
  · rw [hP, if_pos rfl]
  · rw [hM, if_neg (by decide), if_pos rfl]

/-- The `expr` operator loop exits returning its accumulator when the
lookahead is not an additive operator. -/
theorem exprLoop_exit (p : Parser) (n : AST) (f : Nat)
    (h1 : p.current_token.type ≠ .PLUS) (h2 : p.current_token.type ≠ .MINUS) :
    exprLoop (f + 1) n p = .ok (n, p) := by
  unfold exprLoop
  rw [if_neg (fun h => h.elim h1 h2)]

/-- One iteration of the `term` operator loop. -/
theorem termLoop_step (p1 : Parser) (op1 : Token)
    (hcur : p1.current_token = op1)
    (h1 : op1.type = .MUL ∨ op1.type = .DIV) (n : AST) (f : Nat) :
    termLoop (f + 1) n p1 =
      match p1.eat op1.type with
      | .ok p2 =>
        match factor f p2 with
        | .ok (right, p3) => termLoop f (.BinOp n op1 right) p3
        | .error e => .error e
      | .error e => .error e := by
  conv_lhs => rw [termLoop]
  have hguard : p1.current_token.type = .MUL ∨ p1.current_token.type = .DIV := by
    rw [hcur]; exact h1
  rw [if_pos hguard, hcur]
  rcases h1 with hP | hM
  · rw [hP, if_pos rfl]
  · rw [hM, if_neg (by decide), if_pos rfl]

/-- The `term` operator loop exits returning its accumulator when the
lookahead is not a multiplicative operator. -/
theorem termLoop_exit (p : Parser) (n : AST) (f : Nat)
    (h1 : p.current_token.type ≠ .MUL) (h2 : p.current_token.type ≠ .DIV) :
    termLoop (f + 1) n p = .ok (n, p) := by
  unfold termLoop
  rw [if_neg (fun h => h.elim h1 h2)]

end FuelSufficiency


/-- For a non-empty input, the pipeline is: build the lexer and parser, run
`expr` with `parserFuel`, evaluate the tree (a restatement of `interpret`
convenient for case analysis). -/
theorem interpret_eq (s : String) (hne : s.data ≠ []) :
    interpret s =
      match Parser.init (Lexer.init s.data) with
      | .ok p =>
        match expr (parserFuel s.data.length) p with
        | .ok (node, _) => visit node
        | .error e => .error e
      | .error e => .error e := by
  unfold interpret parseExpressionFull
  rw [if_neg hne]
  cases Parser.init (Lexer.init s.data) with
  | ok p => rfl
  | error e => rfl

/-- On an all-whitespace text, `get_next_token` immediately reports EOF. -/
theorem get_next_token_all_space (l : Lexer)
    (hall : ∀ c ∈ l.text, pyIsSpace c = true) :
    l.get_next_token =
      .ok (⟨.EOF, .none⟩, Lexer.skip_whitespace (l.text.length + 1) l) := by
  have hskip : l.text.length ≤ (Lexer.skip_whitespace (l.text.length + 1) l).pos :=
    Lexer.skip_whitespace_all _ l hall (by omega)
  have hcur :
      (Lexer.skip_whitespace (l.text.length + 1) l).current_char = Option.none := by
    apply List.get?_eq_none.mpr
    rw [Lexer.skip_whitespace_text]
    exact hskip
  unfold Lexer.get_next_token Lexer.dispatch
  rw [hcur]

/-- Claim C1: for the input string "2 + 3 * 4", tokenizing, parsing with
`expr` (the spec's parseExpression) and evaluating yields 14, the
multiplication binding tighter than the addition: the parsed tree is
`2 + (3 * 4)`. -/
theorem claim1_precedence :
    interpret "2 + 3 * 4" = .ok 14 ∧
    parseExpression "2 + 3 * 4" =
      .ok (.BinOp (.Num ⟨.INTEGER, .int 2⟩) ⟨.PLUS, .str "+"⟩
             (.BinOp (.Num ⟨.INTEGER, .int 3⟩) ⟨.MUL, .str "*"⟩
               (.Num ⟨.INTEGER, .int 4⟩))) := by
  constructor
  · have h : parseExpressionFull "2 + 3 * 4" =
        .ok (.BinOp (.Num ⟨.INTEGER, .int 2⟩) ⟨.PLUS, .str "+"⟩
               (.BinOp (.Num ⟨.INTEGER, .int 3⟩) ⟨.MUL, .str "*"⟩
                 (.Num ⟨.INTEGER, .int 4⟩)),
             ⟨⟨"2 + 3 * 4".data, 9⟩, ⟨.EOF, .none⟩⟩) := by decide
    unfold interpret
    rw [h]
    simp [visit]
    norm_num
  · decide

/-- Claim C3: the `/` operator is evaluated with true, non-truncating
division: "7 / 2" evaluates to exactly 3.5 (= 7/2 in ℚ), not the truncated
quotient 3. -/
theorem claim3_true_division :
    interpret "7 / 2" = .ok 3.5 ∧ (3.5 : Rat) = 7 / 2 ∧ (3.5 : Rat) ≠ 3 := by
  refine ⟨?_, by norm_num, by norm_num⟩
  have h : parseExpressionFull "7 / 2" =
      .ok (.BinOp (.Num ⟨.INTEGER, .int 7⟩) ⟨.DIV, .str "/"⟩
             (.Num ⟨.INTEGER, .int 2⟩),
           ⟨⟨"7 / 2".data, 5⟩, ⟨.EOF, .none⟩⟩) := by decide
  unfold interpret
  rw [h]
  simp [visit]
  norm_num

/-- Claim C5: parsing does not require END_OF_INPUT after a complete
top-level expression: "1 + 2) 3" parses successfully to the AST of "1 + 2",
leaving the RPAREN lookahead (not EOF) and the trailing input unread. -/
theorem claim5_trailing_tokens :
    parseExpressionFull "1 + 2) 3" =
      .ok (.BinOp (.Num ⟨.INTEGER, .int 1⟩) ⟨.PLUS, .str "+"⟩
             (.Num ⟨.INTEGER, .int 2⟩),
           ⟨⟨"1 + 2) 3".data, 6⟩, ⟨.RPAREN, .str ")"⟩⟩) ∧
    parseExpression "1 + 2) 3" =
      .ok (.BinOp (.Num ⟨.INTEGER, .int 1⟩) ⟨.PLUS, .str "+"⟩
             (.Num ⟨.INTEGER, .int 2⟩)) ∧
    parseExpression "1 + 2" =
      .ok (.BinOp (.Num ⟨.INTEGER, .int 1⟩) ⟨.PLUS, .str "+"⟩
             (.Num ⟨.INTEGER, .int 2⟩)) ∧
    (Token.mk .RPAREN (.str ")")).type ≠ .EOF := by decide

/-- Claim C7: an opening parenthesis not matched by a closing one fails the
parse with `ParsingError`: "(1 + 2" parses the inner expression, reaching an
EOF lookahead, and `eat RPAREN` on that state raises `ParsingError`. -/
theorem claim7_unmatched_paren :
    parseExpression "(1 + 2" = .error .parsingError ∧
    expr 21 ⟨⟨"(1 + 2".data, 2⟩, ⟨.INTEGER, .int 1⟩⟩ =
      .ok (.BinOp (.Num ⟨.INTEGER, .int 1⟩) ⟨.PLUS, .str "+"⟩
             (.Num ⟨.INTEGER, .int 2⟩),
           ⟨⟨"(1 + 2".data, 6⟩, ⟨.EOF, .none⟩⟩) ∧
    (Parser.mk ⟨"(1 + 2".data, 6⟩ ⟨.EOF, .none⟩).eat .RPAREN =
      .error .parsingError := by decide

/-- Claim C2: for every chain `a op1 b op2 c` of same-precedence operators
the parser builds the left-folded tree `BinaryOp(BinaryOp(a, op1, b), op2, c)`
(first conjunct: additive chains in `expr`; second conjunct: multiplicative
chains in `term`), and consequently "10 - 2 - 3" evaluates to 5. -/
theorem claim2_left_assoc :
    (∀ (f : Nat) (p p1 p2 p3 p4 p5 : Parser) (a b c : AST) (op1 op2 : Token),
      op1.type = .PLUS ∨ op1.type = .MINUS →
      op2.type = .PLUS ∨ op2.type = .MINUS →
      term (f + 3) p = .ok (a, p1) →
      p1.current_token = op1 →
      p1.eat op1.type = .ok p2 →
      term (f + 2) p2 = .ok (b, p3) →
      p3.current_token = op2 →
      p3.eat op2.type = .ok p4 →
      term (f + 1) p4 = .ok (c, p5) →
      p5.current_token.type ≠ .PLUS →
      p5.current_token.type ≠ .MINUS →
      expr (f + 4) p = .ok (.BinOp (.BinOp a op1 b) op2 c, p5)) ∧
    (∀ (f : Nat) (p p1 p2 p3 p4 p5 : Parser) (a b c : AST) (op1 op2 : Token),
      op1.type = .MUL ∨ op1.type = .DIV →
      op2.type = .MUL ∨ op2.type = .DIV →
      factor (f + 3) p = .ok (a, p1) →
      p1.current_token = op1 →
      p1.eat op1.type = .ok p2 →
      factor (f + 2) p2 = .ok (b, p3) →
      p3.current_token = op2 →
      p3.eat op2.type = .ok p4 →
      factor (f + 1) p4 = .ok (c, p5) →
      p5.current_token.type ≠ .MUL →
      p5.current_token.type ≠ .DIV →
      term (f + 4) p = .ok (.BinOp (.BinOp a op1 b) op2 c, p5)) ∧
    interpret "10 - 2 - 3" = .ok 5 := by
  refine ⟨?_, ?_, ?_⟩
  · intro f p p1 p2 p3 p4 p5 a b c op1 op2 h1 h2 ht1 hcur1 he1 ht2 hcur2 he2
      ht3 hend1 hend2
    show expr ((f + 3) + 1) p = _
    unfold expr
    simp only [ht1]
    show exprLoop ((f + 2) + 1) a p1 = _
    rw [exprLoop_step p1 op1 hcur1 h1 a (f + 2)]
    simp only [he1, ht2]
    show exprLoop ((f + 1) + 1) (.BinOp a op1 b) p3 = _
    rw [exprLoop_step p3 op2 hcur2 h2 (.BinOp a op1 b) (f + 1)]
    simp only [he2, ht3]
    exact exprLoop_exit p5 _ f hend1 hend2
  · intro f p p1 p2 p3 p4 p5 a b c op1 op2 h1 h2 ht1 hcur1 he1 ht2 hcur2 he2
      ht3 hend1 hend2
    show term ((f + 3) + 1) p = _
    unfold term
    simp only [ht1]
    show termLoop ((f + 2) + 1) a p1 = _
    rw [termLoop_step p1 op1 hcur1 h1 a (f + 2)]
    simp only [he1, ht2]
    show termLoop ((f + 1) + 1) (.BinOp a op1 b) p3 = _
    rw [termLoop_step p3 op2 hcur2 h2 (.BinOp a op1 b) (f + 1)]
    simp only [he2, ht3]
    exact termLoop_exit p5 _ f hend1 hend2
  · have h : parseExpressionFull "10 - 2 - 3" =
        .ok (.BinOp (.BinOp (.Num ⟨.INTEGER, .int 10⟩) ⟨.MINUS, .str "-"⟩
               (.Num ⟨.INTEGER, .int 2⟩)) ⟨.MINUS, .str "-"⟩
               (.Num ⟨.INTEGER, .int 3⟩),
             ⟨⟨"10 - 2 - 3".data, 10⟩, ⟨.EOF, .none⟩⟩) := by decide
    unfold interpret
    rw [h]
    simp [visit]
    norm_num

/-- Witness for C2: the additive fold instantiated on the concrete states
the parser reaches on "10 - 2 - 3". -/
theorem claim2_left_assoc_witness :
    expr 5 ⟨⟨"10 - 2 - 3".data, 2⟩, ⟨.INTEGER, .int 10⟩⟩ =
      .ok (.BinOp (.BinOp (.Num ⟨.INTEGER, .int 10⟩) ⟨.MINUS, .str "-"⟩
             (.Num ⟨.INTEGER, .int 2⟩)) ⟨.MINUS, .str "-"⟩
             (.Num ⟨.INTEGER, .int 3⟩),
           ⟨⟨"10 - 2 - 3".data, 10⟩, ⟨.EOF, .none⟩⟩) :=
  claim2_left_assoc.1 1
    ⟨⟨"10 - 2 - 3".data, 2⟩, ⟨.INTEGER, .int 10⟩⟩
    ⟨⟨"10 - 2 - 3".data, 4⟩, ⟨.MINUS, .str "-"⟩⟩
    ⟨⟨"10 - 2 - 3".data, 6⟩, ⟨.INTEGER, .int 2⟩⟩
    ⟨⟨"10 - 2 - 3".data, 8⟩, ⟨.MINUS, .str "-"⟩⟩
    ⟨⟨"10 - 2 - 3".data, 10⟩, ⟨.INTEGER, .int 3⟩⟩
    ⟨⟨"10 - 2 - 3".data, 10⟩, ⟨.EOF, .none⟩⟩
    (.Num ⟨.INTEGER, .int 10⟩) (.Num ⟨.INTEGER, .int 2⟩)
    (.Num ⟨.INTEGER, .int 3⟩) ⟨.MINUS, .str "-"⟩ ⟨.MINUS, .str "-"⟩
    (Or.inr rfl) (Or.inr rfl) (by decide) (by decide) (by decide) (by decide)
    (by decide) (by decide) (by decide) (by decide) (by decide)

/-- Counterexample to claim C4: the tokenizer's PLUS token (from input "+")
carries the value `"+"`, which is not the absent/unit value — non-NUMBER
tokens do carry values in this code. -/
theorem claim4_counterexample :
    (Lexer.init ['+']).get_next_token =
      .ok (⟨.PLUS, .str "+"⟩, ⟨['+'], 1⟩) ∧
    TokenValue.str "+" ≠ TokenValue.none := by decide

/-- Claim C4 as amended: a NUMBER token's value is a non-negative integer,
the END_OF_INPUT token carries no value, and every other token (operator or
parenthesis) carries exactly its one-character lexeme as a string value:
`"+"` for PLUS, `"-"` for MINUS, `"*"` for MUL, `"/"` for DIV, `"("` for
LPAREN and `")"` for RPAREN. -/
theorem claim4_amended (l : Lexer) (t : Token) (l' : Lexer)
    (h : l.get_next_token = .ok (t, l')) :
    (t.type = .INTEGER → ∃ n : Nat, t.value = .int n) ∧
    (t.type = .EOF → t.value = .none) ∧
    (t.type = .PLUS → t.value = .str "+") ∧
    (t.type = .MINUS → t.value = .str "-") ∧
    (t.type = .MUL → t.value = .str "*") ∧
    (t.type = .DIV → t.value = .str "/") ∧
    (t.type = .LPAREN → t.value = .str "(") ∧
    (t.type = .RPAREN → t.value = .str ")") := by
  unfold Lexer.get_next_token Lexer.dispatch at h
  cases hc : (Lexer.skip_whitespace (l.text.length + 1) l).current_char with
  | none =>
    rw [hc] at h
    simp only [Except.ok.injEq, Prod.mk.injEq] at h
    obtain ⟨rfl, rfl⟩ := h.symm
    refine ⟨?_, ?_, ?_, ?_, ?_, ?_, ?_, ?_⟩ <;> simp
  | some c =>
    rw [hc] at h
    simp only at h
    split_ifs at h <;>
      (simp only [Except.ok.injEq, Prod.mk.injEq] at h;
       obtain ⟨rfl, rfl⟩ := h.symm) <;>
      refine ⟨?_, ?_, ?_, ?_, ?_, ?_, ?_, ?_⟩ <;> simp

/-- Witness for the amended C4 at the concrete PLUS token read from "+",
whose value is forced to be the lexeme `"+"`. -/
theorem claim4_amended_witness :
    ((Token.mk .PLUS (.str "+")).type = .INTEGER →
      ∃ n : Nat, (Token.mk .PLUS (.str "+")).value = .int n) ∧
    ((Token.mk .PLUS (.str "+")).type = .EOF →
      (Token.mk .PLUS (.str "+")).value = .none) ∧
    ((Token.mk .PLUS (.str "+")).type = .PLUS →
      (Token.mk .PLUS (.str "+")).value = .str "+") ∧
    ((Token.mk .PLUS (.str "+")).type = .MINUS →
      (Token.mk .PLUS (.str "+")).value = .str "-") ∧
    ((Token.mk .PLUS (.str "+")).type = .MUL →
      (Token.mk .PLUS (.str "+")).value = .str "*") ∧
    ((Token.mk .PLUS (.str "+")).type = .DIV →
      (Token.mk .PLUS (.str "+")).value = .str "/") ∧
    ((Token.mk .PLUS (.str "+")).type = .LPAREN →
      (Token.mk .PLUS (.str "+")).value = .str "(") ∧
    ((Token.mk .PLUS (.str "+")).type = .RPAREN →
      (Token.mk .PLUS (.str "+")).value = .str ")") :=
  claim4_amended (Lexer.init [' ', '+']) ⟨.PLUS, .str "+"⟩ ⟨[' ', '+'], 2⟩
    (by decide)

/-- Claim C6: a character that is not whitespace, not a digit and not one of
`+ - * / ( )` makes `get_next_token` fail with `LexicalError`; `LexicalError`
is moreover the only error kind the tokenizer can raise, and tokenizing
"1 + a" fails with it. -/
theorem claim6_lexical_error :
    (∀ (l : Lexer) (e : InterpErr), l.get_next_token = .error e →
      e = .lexicalError) ∧
    (∀ (l : Lexer) (c : Char),
      (Lexer.skip_whitespace (l.text.length + 1) l).current_char = some c →
      pyIsSpace c = false → pyIsDigit c = false →
      c ∉ ['+', '-', '*', '/', '(', ')'] →
      l.get_next_token = .error .lexicalError) ∧
    tokenize "1 + a" = .error .lexicalError := by
  refine ⟨fun l e h => Lexer.get_next_token_error l e h,
    fun l c hc _hsp hd hops => ?_, by decide⟩
  simp only [List.mem_cons, List.mem_singleton] at hops
  push_neg at hops
  obtain ⟨h1, h2, h3, h4, h5, h6⟩ := hops
  unfold Lexer.get_next_token Lexer.dispatch
  rw [hc]
  simp [hd, h1, h2, h3, h4, h5, h6]

/-- Witness for C6 at the unsupported character 'a'. -/
theorem claim6_lexical_error_witness :
    (Lexer.init ['a']).get_next_token = .error .lexicalError :=
  claim6_lexical_error.2.1 (Lexer.init ['a']) 'a' (by decide) (by decide)
    (by decide) (by decide)

/-- Claim C8: once the input is exhausted (the cursor has reached the end of
the text), every call to `get_next_token` returns the END_OF_INPUT token
without error and returns the lexer state unchanged, so all subsequent calls
do the same. -/
theorem claim8_eof_idempotent (l : Lexer) (h : l.text.length ≤ l.pos) :
    l.get_next_token = .ok (⟨.EOF, .none⟩, l) :=
  Lexer.get_next_token_exhausted l h

/-- Witness for C8: a lexer already past its one-character text. -/
theorem claim8_eof_idempotent_witness :
    (Lexer.mk ['1'] 5).get_next_token = .ok (⟨.EOF, .none⟩, Lexer.mk ['1'] 5) :=
  claim8_eof_idempotent (Lexer.mk ['1'] 5) (by decide)

/-- Claim C9: the tokenizer's `advance` strictly increases the cursor
position, and for every non-empty input string the whole
tokenize–parse–evaluate pipeline terminates with a result or an error: with
the fuel `run`/`interpret` supplies, the fuel-exhaustion artifact is
unreachable. -/
theorem claim9_termination :
    (∀ l : Lexer, l.pos < l.advance.pos) ∧
    (∀ s : String, s.data ≠ [] → interpret s ≠ .error .outOfFuel) := by
  refine ⟨fun l => Nat.lt_succ_self l.pos, fun s hne heq => ?_⟩
  rw [interpret_eq s hne] at heq
  cases hinit : Parser.init (Lexer.init s.data) with
  | error e =>
    rw [hinit] at heq
    have heq' : (Except.error e : Except InterpErr Rat) = .error .outOfFuel := heq
    have hlex := Parser.init_error _ e hinit
    rw [hlex] at heq'
    exact absurd (Except.error.inj heq') (by decide)
  | ok p =>
    rw [hinit] at heq
    simp only at heq
    have hin0 : (Lexer.init s.data).InBounds := Nat.zero_le _
    obtain ⟨hpin, hptext, hprem⟩ := Parser.init_ok _ p hin0 hinit
    have htlen : (Lexer.init s.data).text.length = s.data.length := rfl
    rw [htlen] at hprem
    have hE := (parserFuelSufficient (parserFuel s.data.length)).2.2.2.1
    have hG := hE p hpin (by unfold parserFuel; omega)
    cases hex : expr (parserFuel s.data.length) p with
    | error e2 =>
      rw [hex] at heq
      have heq' : (Except.error e2 : Except InterpErr Rat) = .error .outOfFuel := heq
      exact ne_fuel_of_eq hG.1 hex (Except.error.inj heq')
    | ok r =>
      obtain ⟨node, p'⟩ := r
      rw [hex] at heq
      have heq' : visit node = .error .outOfFuel := heq
      exact visit_ne_fuel node heq'

/-- Witness for C9 on the input "1". -/
theorem claim9_termination_witness : interpret "1" ≠ .error .outOfFuel :=
  claim9_termination.2 "1" (by decide)

/-- Claim C10: a non-empty input consisting only of whitespace parses to
`ParsingError` (the first pulled token is already END_OF_INPUT, which
`factor` rejects); it neither loops nor raises `LexicalError`. -/
theorem claim10_whitespace_only (s : String) (hne : s.data ≠ [])
    (hsp : ∀ c ∈ s.data, pyIsSpace c = true) :
    interpret s = .error .parsingError := by
  have hgnt := get_next_token_all_space (Lexer.init s.data) hsp
  have hinit : Parser.init (Lexer.init s.data) =
      .ok ⟨Lexer.skip_whitespace ((Lexer.init s.data).text.length + 1)
             (Lexer.init s.data), ⟨.EOF, .none⟩⟩ := by
    unfold Parser.init
    rw [hgnt]
  have hfu : parserFuel s.data.length = (3 * s.data.length + 3) + 3 := by
    unfold parserFuel; omega
  have hex : expr (parserFuel s.data.length)
      ⟨Lexer.skip_whitespace ((Lexer.init s.data).text.length + 1)
         (Lexer.init s.data), ⟨.EOF, .none⟩⟩ = .error .parsingError := by
    rw [hfu]
    exact expr_eof _ rfl (3 * s.data.length + 3)
  rw [interpret_eq s hne, hinit]
  simp only [hex]

/-- Witness for C10 on the single-space input. -/
theorem claim10_whitespace_only_witness : interpret " " = .error .parsingError :=
  claim10_whitespace_only " " (by decide) (by decide)
